import Mathlib

/-!
Verification development for the Email-Scrapper repository
(src/aslocation.py and src/keyword001.py).

The two scripts are near-identical.  The development embeds, as Lean
definitions translated from the Python source:

* the e-mail extraction step
  (the regex findall / set / sorted pipeline of scrape_google_emails),
* the checkpoint loading logic (load_checkpoint),
* the scroll-to-exhaustion loop,
* the orchestrator loop of scrape_google_emails, with the external
  world (WebDriver initialization, navigation outcomes, driver.quit
  outcomes) supplied as an environment of outcome sequences, and the
  durable checkpoint file modelled as the record passed to the last
  save_checkpoint call (writes are modelled as succeeding),
* the process exit behaviour of the script entry point.
-/

/-! ## Text extractor

Model of
  set(re.findall(r'[a-zA-Z0-9._%+-]+@[a-zA-Z0-9.-]+\.(?!png|jpg|jpeg)[a-zA-Z]{2,}', page_html))
followed by sorted(list(...)), from src/aslocation.py lines 154-155
(identical in src/keyword001.py line 135-136).

The regex is matched with Python semantics: leftmost start position,
greedy quantifiers with backtracking, non-overlapping matches, findall
resuming at the end of each match.  For this concrete pattern the
backtracking search reduces to: the local part is a maximal run of
local characters immediately followed by an at-sign; the domain part is
found by scanning the maximal run of domain characters for the
rightmost dot that has at least one domain character before it and
whose following position passes the negative lookahead and carries at
least two ASCII letters. -/

/-- Character class of the local part, Python regex class
[a-zA-Z0-9._%+-]. -/
def isLocalChar (c : Char) : Bool :=
  c.isAlpha || c.isDigit || c = '.' || c = '_' || c = '%' || c = '+' || c = '-'

/-- Character class of the domain part, Python regex class
[a-zA-Z0-9.-]. -/
def isDomainChar (c : Char) : Bool :=
  c.isAlpha || c.isDigit || c = '.' || c = '-'

/-- Does the character list start with the given pattern?  Models a
literal alternative inside the regex lookahead. -/
def startsWithChars : List Char → List Char → Bool
  | [], _ => true
  | _ :: _, [] => false
  | p :: ps, c :: cs => p = c && startsWithChars ps cs

/-- The negative lookahead (?!png|jpg|jpeg): the position is blocked
when the remaining input starts with one of the three literals. -/
def blockedAt (l : List Char) : Bool :=
  startsWithChars ['p', 'n', 'g'] l || startsWithChars ['j', 'p', 'g'] l ||
    startsWithChars ['j', 'p', 'e', 'g'] l

/-- Attempt of the tail of the pattern at a position just after a dot:
the lookahead must pass and the greedy run of [a-zA-Z]{2,} must have
length at least two.  Returns the matched top-level label. -/
def tldAt (l : List Char) : Option (List Char) :=
  if blockedAt l then none
  else
    let t := l.takeWhile Char.isAlpha
    if 2 ≤ t.length then some t else none

/-- Backtracking over the domain run: the first argument is the not yet
examined part of the domain-character run, reversed (so its head is the
rightmost unexamined character); the second accumulates, in order, the
characters to the right of the head; the third is the input following
the domain run.  The regex engine tries dot positions from right to
left; a candidate dot needs at least one domain character before it
(the + on the domain class) and a successful tail.  Returns the domain
part and the matched top-level label. -/
def searchDot : List Char → List Char → List Char → Option (List Char × List Char)
  | [], _, _ => none
  | c :: revRest, acc, r3 =>
    if c = '.' ∧ revRest ≠ [] then
      match tldAt (acc ++ r3) with
      | some t => some (revRest.reverse, t)
      | none => searchDot revRest (c :: acc) r3
    else searchDot revRest (c :: acc) r3

/-- One match attempt of the full pattern anchored at the start of l,
returning the matched characters.  The local part must be the maximal
run of local characters (backtracking inside the run cannot expose the
at-sign, since the at-sign is not a local character), followed by a
literal at-sign, then the domain search. -/
def matchCore (l : List Char) : Option (List Char) :=
  let loc := l.takeWhile isLocalChar
  match loc, l.drop loc.length with
  | _ :: _, '@' :: r2 =>
    let dom := r2.takeWhile isDomainChar
    match searchDot dom.reverse [] (r2.drop dom.length) with
    | some (d, t) => some (loc ++ '@' :: (d ++ '.' :: t))
    | none => none
  | _, _ => none

/-- A match attempt together with the input remaining after the match,
where the findall scan resumes. -/
def matchAtStart (l : List Char) : Option (List Char × List Char) :=
  (matchCore l).map fun m => (m, l.drop m.length)

theorem matchCore_pos {l m : List Char} (h : matchCore l = some m) :
    0 < m.length ∧ l ≠ [] := by
  refine ⟨?_, ?_⟩
  · simp only [matchCore] at h
    split at h
    · split at h
      · simp only [Option.some.injEq] at h
        subst h
        simp
      · exact absurd h (by simp)
    · exact absurd h (by simp)
  · intro hnil
    subst hnil
    simp [matchCore] at h

theorem matchAtStart_rest_lt {l m r : List Char} (h : matchAtStart l = some (m, r)) :
    r.length < l.length := by
  simp only [matchAtStart, Option.map_eq_some'] at h
  obtain ⟨m', hm', heq⟩ := h
  obtain ⟨hpos, hne⟩ := matchCore_pos hm'
  have hlen : 0 < l.length := List.length_pos.mpr hne
  have : r = l.drop m'.length := by
    have := congrArg Prod.snd heq
    simpa using this.symm
  subst this
  simp only [List.length_drop]
  omega

/-- Model of re.findall for the e-mail pattern: scan the input left to
right; at each position attempt a match; on success emit the match and
resume after it, otherwise advance one character.  The first argument
is fuel bounding the number of scan steps; each step consumes at least
one input character, so fuel equal to the input length is enough (see
findAllEmailsFuel_stable). -/
def findAllEmailsFuel : Nat → List Char → List (List Char)
  | 0, _ => []
  | fuel + 1, l =>
    match l with
    | [] => []
    | c :: rest =>
      match matchAtStart (c :: rest) with
      | some (m, r) => m :: findAllEmailsFuel fuel r
      | none => findAllEmailsFuel fuel rest

/-- The findall scan over the whole input. -/
def findAllEmails (l : List Char) : List (List Char) :=
  findAllEmailsFuel l.length l

theorem findAllEmailsFuel_succ (n : Nat) (c : Char) (rest : List Char) :
    findAllEmailsFuel (n + 1) (c :: rest) =
      match matchAtStart (c :: rest) with
      | some (m, r) => m :: findAllEmailsFuel n r
      | none => findAllEmailsFuel n rest := rfl

/-- Fuel equal to the input length never runs out: adding fuel does not
change the result, so the fuel-indexed scan agrees with the unbounded
Python scan. -/
theorem findAllEmailsFuel_stable : ∀ {n : Nat} {l : List Char}, l.length ≤ n →
    findAllEmailsFuel n l = findAllEmailsFuel (n + 1) l := by
  intro n
  induction n with
  | zero =>
    intro l hl
    have : l = [] := List.length_eq_zero.mp (Nat.le_zero.mp hl)
    subst this
    rfl
  | succ n ih =>
    intro l hl
    cases l with
    | nil => rfl
    | cons c rest =>
      rw [findAllEmailsFuel_succ, findAllEmailsFuel_succ]
      cases hm : matchAtStart (c :: rest) with
      | some p =>
        obtain ⟨m, r⟩ := p
        have hr : r.length < (c :: rest).length := matchAtStart_rest_lt hm
        simp only [List.length_cons] at hr hl
        show m :: findAllEmailsFuel n r = m :: findAllEmailsFuel (n + 1) r
        rw [ih (by omega)]
      | none =>
        simp only [List.length_cons] at hl
        show findAllEmailsFuel n rest = findAllEmailsFuel (n + 1) rest
        exact ih (by omega)

/-- Lexicographic comparison of character lists by code point, the
order Python's sorted uses on str values. -/
def lexLe : List Char → List Char → Bool
  | [], _ => true
  | _ :: _, [] => false
  | a :: as, b :: bs =>
    if a.toNat = b.toNat then lexLe as bs else decide (a.toNat < b.toNat)

/-- Lexicographic code-point comparison on strings. -/
def strLeB (a b : String) : Bool :=
  lexLe a.data b.data

/-- The order relation used to model Python's sorted on strings. -/
def StrLe (a b : String) : Prop :=
  strLeB a b = true

instance : DecidableRel StrLe := fun a b => by
  unfold StrLe
  infer_instance

theorem lexLe_total (as bs : List Char) : lexLe as bs = true ∨ lexLe bs as = true := by
  induction as generalizing bs with
  | nil => left; rfl
  | cons a as ih =>
    cases bs with
    | nil => right; rfl
    | cons b bs =>
      by_cases hab : a.toNat = b.toNat
      · rcases ih bs with h | h
        · left; simp [lexLe, hab, h]
        · right; simp [lexLe, hab.symm, h]
      · rcases Nat.lt_or_ge a.toNat b.toNat with hlt | hge
        · left; simp [lexLe, hab, hlt]
        · right
          have hba : b.toNat ≠ a.toNat := fun hc => hab hc.symm
          have : b.toNat < a.toNat := lt_of_le_of_ne hge hba
          simp [lexLe, hba, this]

theorem lexLe_trans {as bs cs : List Char} (h₁ : lexLe as bs = true)
    (h₂ : lexLe bs cs = true) : lexLe as cs = true := by
  induction as generalizing bs cs with
  | nil => rfl
  | cons a as ih =>
    cases bs with
    | nil => simp [lexLe] at h₁
    | cons b bs =>
      cases cs with
      | nil => simp [lexLe] at h₂
      | cons c cs =>
        simp only [lexLe] at h₁ h₂ ⊢
        by_cases hab : a.toNat = b.toNat
        · by_cases hbc : b.toNat = c.toNat
          · rw [if_pos hab] at h₁
            rw [if_pos hbc] at h₂
            rw [if_pos (hab.trans hbc)]
            exact ih h₁ h₂
          · rw [if_neg hbc] at h₂
            have hbclt : b.toNat < c.toNat := by
              by_contra hc
              simp [hc] at h₂
            have : a.toNat < c.toNat := hab ▸ hbclt
            rw [if_neg (Nat.ne_of_lt this)]
            exact decide_eq_true this
        · rw [if_neg hab] at h₁
          have hablt : a.toNat < b.toNat := by
            by_contra hc
            simp [hc] at h₁
          by_cases hbc : b.toNat = c.toNat
          · have : a.toNat < c.toNat := hbc ▸ hablt
            rw [if_neg (Nat.ne_of_lt this)]
            exact decide_eq_true this
          · rw [if_neg hbc] at h₂
            have hbclt : b.toNat < c.toNat := by
              by_contra hc
              simp [hc] at h₂
            have : a.toNat < c.toNat := Nat.lt_trans hablt hbclt
            rw [if_neg (Nat.ne_of_lt this)]
            exact decide_eq_true this

instance : IsTotal String StrLe :=
  ⟨fun a b => lexLe_total a.data b.data⟩

instance : IsTrans String StrLe :=
  ⟨fun _ _ _ h₁ h₂ => lexLe_trans h₁ h₂⟩

/-- The extractor, src/aslocation.py lines 154-155:
emails = set(re.findall(pattern, page_html)); sorted(list(emails)).
Set semantics is modelled by dedup, sorted by insertion sort under the
lexicographic code-point order, the order Python's sorted uses. -/
def extract (s : String) : List String :=
  List.insertionSort StrLe (((findAllEmails s.data).map fun cs => String.mk cs).dedup)

example : extract "contact a@b.com now" = ["a@b.com"] := by decide
example : extract "foo@bar.png" = [] := by decide
example : extract "x@y.jpeg" = [] := by decide
example : extract "a@b.pngs" = [] := by decide
example : extract "see a@b.png.com here" = ["a@b.png.com"] := by decide
example : extract "b@x.com a@x.com b@x.com" = ["a@x.com", "b@x.com"] := by decide

example : extract "a@b..com" = ["a@b..com"] := by decide
example : extract "a@.com" = [] := by decide
example : extract "@b.com" = [] := by decide
example : extract "a@b.c" = [] := by decide
example : extract "a@b.co1x" = ["a@b.co"] := by decide
example : extract "a@b.PNG" = ["a@b.PNG"] := by decide
example : extract "a@b.jpga" = [] := by decide
example : extract "a@b.jpeg.net" = ["a@b.jpeg.net"] := by decide
example : extract "weird..a@b.com" = ["weird..a@b.com"] := by decide
example : extract "a@b.com@c.de" = ["a@b.com"] := by decide
example : extract "a@b.cde@f.gh" = ["a@b.cde"] := by decide
example : extract "x a@b.c.png y" = [] := by decide
example : extract "a@b.pn" = ["a@b.pn"] := by decide
example : extract "mail: john_doe%x+1@sub.domain-x.org!" = ["john_doe%x+1@sub.domain-x.org"] := by decide
example : extract "a@b.comb@c.com" = ["a@b.comb"] := by decide
example : extract "a@b.pngpng.com" = ["a@b.pngpng.com"] := by decide
example : extract "aa@bb.jpg aa@bb.jpgx aa@bb.jp" = ["aa@bb.jp"] := by decide

/-! ## Checkpoint store

Model of load_checkpoint (src/aslocation.py lines 52-70, identical in
src/keyword001.py lines 48-63) and of the durable file written by
save_checkpoint.  json.loads is an external library: it is supplied as
a parameter mapping the file content to the parsed JSON value, with
none covering both json.JSONDecodeError and any other exception, each
of which the source catches and turns into an empty dict. -/

/-- JSON values, the possible results of json.loads. -/
inductive JsonVal where
  | null
  | bool (b : Bool)
  | num (n : Int)
  | str (s : String)
  | arr (xs : List JsonVal)
  | obj (fields : List (String × JsonVal))

/-- Python str.strip(): remove leading and trailing whitespace. -/
def pyStrip (s : String) : String :=
  String.mk (((s.data.dropWhile Char.isWhitespace).reverse.dropWhile Char.isWhitespace).reverse)

/-- load_checkpoint: if the file does not exist, return the empty dict;
otherwise read and strip the content; if it is empty return the empty
dict; otherwise json.loads it, returning the empty dict when parsing
raises.  Whatever value json.loads produces is returned unchanged. -/
def load_checkpoint (fileExists : Bool) (raw : String)
    (jsonLoads : String → Option JsonVal) : JsonVal :=
  if fileExists then
    let content := pyStrip raw
    if content = "" then JsonVal.obj []
    else
      match jsonLoads content with
      | some v => v
      | none => JsonVal.obj []
  else JsonVal.obj []

/-! ## Scroll-to-exhaustion loop

Model of src/aslocation.py lines 142-150 (identical in
src/keyword001.py lines 124-132):

  last_height = driver.execute_script("return document.body.scrollHeight")
  while True:
      driver.execute_script("window.scrollTo(0, document.body.scrollHeight);")
      time.sleep(random.uniform(8, 12))
      new_height = driver.execute_script("return document.body.scrollHeight")
      if new_height == last_height:
          break
      last_height = new_height
      time.sleep(random.uniform(5, 7))

The page provider is modelled by the sequence of measured extents: the
first element is the initial measurement, each further element the
re-measurement after one scroll action.  The result is the number of
scroll actions issued before the loop ends, and none when the supplied
measurement sequence is exhausted before the loop terminates. -/

/-- The while loop, given the current last_height and the remaining
measurements. -/
def scrollSteps : Nat → List Nat → Option Nat
  | _, [] => none
  | last, h :: rest =>
    if h = last then some 1
    else (scrollSteps h rest).map (· + 1)

/-- The whole scroll protocol: take the initial measurement, then loop. -/
def scrollRun : List Nat → Option Nat
  | [] => none
  | h0 :: rest => scrollSteps h0 rest

example : scrollRun [100, 250, 250] = some 2 := by decide
example : scrollRun [100, 100] = some 1 := by decide
example : scrollRun [100, 250, 300] = none := by decide

/-! ## Orchestrator

Model of scrape_google_emails (src/aslocation.py lines 111-184; the
keyword001.py variant differs only in how the key string and query are
built from the work item).  The external world is an environment of
outcome sequences: initOk n is whether the n-th initialize_driver call
returns a driver (None on failure), nav n the outcome of the n-th
driver.get navigation attempt (err models a WebDriverException raised
anywhere inside the per-item try block, ok carries the page source the
attempt would yield), and quitOk n whether the n-th driver.quit call
returns normally (false models an exception raised by quit).

The durable checkpoint file is the record passed to the most recent
save_checkpoint call (the store field); writes are modelled as
succeeding.  email_results is a Python dict from key strings to sorted
e-mail lists, modelled as an association list with dict insertion
semantics.

Control flow mirrored from the source:

* a key already present is skipped (continue) without navigation;
* a successful navigation stores extract(page_source) under the key
  and saves the whole record;
* a WebDriverException triggers driver.quit() and a fresh
  initialize_driver; if the restart fails the record is saved and the
  function returns early; if it succeeds the loop does continue, which
  in Python advances the for loop to the NEXT work item (the log line
  says the item is retried, but the item itself is never revisited in
  this run);
* an exception raised by driver.quit() inside the except handler
  escapes to the outer except block, which saves the record; the
  function then runs its finally clause and returns normally;
* the finally clause calls driver.quit() when driver is not None; an
  exception raised there propagates out of scrape_google_emails. -/

/-- A ResultSet: the sorted deduplicated e-mail list for one item. -/
abbrev ResultSet := List String

/-- The email_results dict mapping work-item keys to result sets. -/
abbrev Record := List (String × ResultSet)

/-- Dict lookup: the value stored under a key. -/
def lookupKey : Record → String → Option ResultSet
  | [], _ => none
  | (k', v) :: rest, k => if k' = k then some v else lookupKey rest k

/-- Dict membership, the test "location in email_results". -/
def containsKey (r : Record) (k : String) : Bool :=
  (lookupKey r k).isSome

/-- Dict assignment "email_results[key] = v": replace the binding when
the key is present, append it otherwise. -/
def insertKey : Record → String → ResultSet → Record
  | [], k, v => [(k, v)]
  | (k', v') :: rest, k, v =>
    if k' = k then (k, v) :: rest else (k', v') :: insertKey rest k v

/-- Outcome of one driver.get navigation attempt. -/
inductive NavResult where
  | ok (pageHtml : String)
  | err
deriving DecidableEq

/-- The external world of the run. -/
structure Env where
  initOk : Nat → Bool
  nav : Nat → NavResult
  quitOk : Nat → Bool

/-- Observable actions of the orchestrator. -/
inductive Event where
  | navigate (key : String)
  | save (snapshot : Record)
  | initDriver (ok : Bool)
  | quitAttempt (ok : Bool)
deriving DecidableEq

/-- How the for loop over work items ended. -/
inductive LoopOut where
  | finished
  | earlyReturn
  | excEscape
deriving DecidableEq

/-- How the call to scrape_google_emails ended: a normal return, the
early return after a failed driver restart, or an exception leaving the
function (only a quit failure in the finally clause can do that). -/
inductive RunExit where
  | completed
  | recoveryFailed
  | raised
deriving DecidableEq

/-- Orchestrator state: the in-memory record, the durable store (the
record passed to the latest save_checkpoint, none before any save),
the next outcome indices, and whether the driver variable holds a live
session. -/
structure OrchSt where
  record : Record
  store : Option Record
  navIdx : Nat
  initIdx : Nat
  quitIdx : Nat
  driverLive : Bool
deriving DecidableEq

/-- The for loop over work items, from the state at loop entry. -/
def runItems (env : Env) : List String → OrchSt → OrchSt × List Event × LoopOut
  | [], st => (st, [], LoopOut.finished)
  | key :: rest, st =>
    if containsKey st.record key then
      runItems env rest st
    else
      match env.nav st.navIdx with
      | NavResult.ok html =>
        let newRec := insertKey st.record key (extract html)
        let st' : OrchSt :=
          { st with record := newRec, store := some newRec, navIdx := st.navIdx + 1 }
        let out := runItems env rest st'
        (out.1, Event.navigate key :: Event.save newRec :: out.2.1, out.2.2)
      | NavResult.err =>
        if env.quitOk st.quitIdx then
          if env.initOk st.initIdx then
            let st' : OrchSt :=
              { st with navIdx := st.navIdx + 1, quitIdx := st.quitIdx + 1,
                        initIdx := st.initIdx + 1, driverLive := true }
            let out := runItems env rest st'
            (out.1,
             Event.navigate key :: Event.quitAttempt true :: Event.initDriver true :: out.2.1,
             out.2.2)
          else
            ({ st with navIdx := st.navIdx + 1, quitIdx := st.quitIdx + 1,
                       initIdx := st.initIdx + 1, store := some st.record,
                       driverLive := false },
             [Event.navigate key, Event.quitAttempt true, Event.initDriver false,
              Event.save st.record],
             LoopOut.earlyReturn)
        else
          ({ st with navIdx := st.navIdx + 1, quitIdx := st.quitIdx + 1 },
           [Event.navigate key, Event.quitAttempt false],
           LoopOut.excEscape)

/-- The finally clause: quit the driver when it is not None; a quit
failure there escapes the function. -/
def applyFinally (env : Env) (st : OrchSt) (tr : List Event) (exitIfOk : RunExit) :
    OrchSt × List Event × RunExit :=
  if st.driverLive then
    let q := env.quitOk st.quitIdx
    ({ st with quitIdx := st.quitIdx + 1, driverLive := false },
     tr ++ [Event.quitAttempt q],
     if q then exitIfOk else RunExit.raised)
  else (st, tr, exitIfOk)

/-- The orchestrator state at loop entry after a successful initial
initialize_driver call: the loaded record, nothing saved yet, the first
navigation and quit outcomes pending, one initialization consumed. -/
def initSt (init : Record) : OrchSt :=
  { record := init, store := none, navIdx := 0, initIdx := 1, quitIdx := 0,
    driverLive := true }

/-- The whole call to scrape_google_emails: load has already produced
init; create the initial driver, run the loop, handle the outer except
block, and run the finally clause. -/
def scrapeRun (env : Env) (init : Record) (items : List String) :
    OrchSt × List Event × RunExit :=
  if env.initOk 0 then
    let out := runItems env items (initSt init)
    match out.2.2 with
    | LoopOut.finished =>
      let fin := applyFinally env out.1 (Event.initDriver true :: out.2.1) RunExit.completed
      fin
    | LoopOut.earlyReturn =>
      applyFinally env out.1 (Event.initDriver true :: out.2.1) RunExit.recoveryFailed
    | LoopOut.excEscape =>
      applyFinally env { out.1 with store := some out.1.record }
        (Event.initDriver true :: out.2.1 ++ [Event.save out.1.record]) RunExit.completed
  else
    ({ record := init, store := some init, navIdx := 0, initIdx := 1, quitIdx := 0,
       driverLive := false },
     [Event.initDriver false, Event.save init],
     RunExit.completed)

/-- Process exit status of the script entry point (src/aslocation.py
lines 186-206): exit(1) only when no work items were loaded; every
other outcome, including any exception reaching the top-level handler,
is logged and the process ends with status 0. -/
def mainExitCode (pathsExist : Bool) (locations : List String) : Nat :=
  if pathsExist then
    if locations.isEmpty then 1 else 0
  else 0

/-- Environment where the first navigation raises WebDriverException,
the driver restart succeeds, and every later navigation succeeds. -/
def envRetryOnce : Env :=
  { initOk := fun _ => true,
    nav := fun n => if n = 0 then NavResult.err else NavResult.ok "b@x.com",
    quitOk := fun _ => true }

example : (scrapeRun envRetryOnce [] ["A", "B"]).2.1 =
    [Event.initDriver true, Event.navigate "A", Event.quitAttempt true,
     Event.initDriver true, Event.navigate "B", Event.save [("B", ["b@x.com"])],
     Event.quitAttempt true] := by decide
example : lookupKey (scrapeRun envRetryOnce [] ["A", "B"]).1.record "A" = none := by decide
example : (scrapeRun envRetryOnce [] ["A", "B"]).2.2 = RunExit.completed := by decide

/-- Environment where the first navigation fails and the driver restart
also fails. -/
def envRecoveryFail : Env :=
  { initOk := fun n => n = 0,
    nav := fun _ => NavResult.err,
    quitOk := fun _ => true }

example : (scrapeRun envRecoveryFail [] ["A", "B"]).2.1 =
    [Event.initDriver true, Event.navigate "A", Event.quitAttempt true,
     Event.initDriver false, Event.save []] := by decide
example : (scrapeRun envRecoveryFail [] ["A", "B"]).2.2 = RunExit.recoveryFailed := by decide
example : (scrapeRun envRecoveryFail [] ["A", "B"]).1.store = some [] := by decide

/-- Environment of the end-to-end scenario of the spec: Austin yields a
page containing a@x.com, Dallas a page with no e-mail shaped text. -/
def envScenario : Env :=
  { initOk := fun _ => true,
    nav := fun n => if n = 0 then NavResult.ok "call a@x.com" else NavResult.ok "no emails here",
    quitOk := fun _ => true }

example : (scrapeRun envScenario [] ["Austin", "Dallas"]).1.record =
    [("Austin", ["a@x.com"]), ("Dallas", [])] := by decide
example : (scrapeRun envScenario [] ["Austin", "Dallas"]).1.store =
    some [("Austin", ["a@x.com"]), ("Dallas", [])] := by decide

/-- Environment where everything succeeds but the final driver.quit in
the finally clause raises. -/
def envQuitFail : Env :=
  { initOk := fun _ => true,
    nav := fun _ => NavResult.ok "a@x.com",
    quitOk := fun _ => false }

example : (scrapeRun envQuitFail [] ["A"]).2.2 = RunExit.raised := by decide

/-- Environment where the driver.quit inside the recovery handler
raises: the exception escapes to the outer except block, which saves,
and the finally clause quits the still-live driver. -/
def envQuitFailInRecovery : Env :=
  { initOk := fun _ => true,
    nav := fun _ => NavResult.err,
    quitOk := fun n => n ≠ 0 }

example : (scrapeRun envQuitFailInRecovery [] ["A", "B"]).2.1 =
    [Event.initDriver true, Event.navigate "A", Event.quitAttempt false,
     Event.save [], Event.quitAttempt true] := by decide
example : (scrapeRun envQuitFailInRecovery [] ["A", "B"]).2.2 = RunExit.completed := by decide

/-! ## Dictionary lemmas -/

theorem lookupKey_insertKey_self (r : Record) (k : String) (v : ResultSet) :
    lookupKey (insertKey r k v) k = some v := by
  induction r with
  | nil => simp [insertKey, lookupKey]
  | cons p rest ih =>
    obtain ⟨k0, v0⟩ := p
    by_cases h0 : k0 = k
    · subst h0
      simp [insertKey, lookupKey]
    · simp [insertKey, lookupKey, h0, ih]

theorem lookupKey_insertKey_ne (r : Record) {k k' : String} (v : ResultSet)
    (h : k ≠ k') : lookupKey (insertKey r k v) k' = lookupKey r k' := by
  induction r with
  | nil => simp [insertKey, lookupKey, h]
  | cons p rest ih =>
    obtain ⟨k0, v0⟩ := p
    by_cases h0 : k0 = k
    · subst h0
      simp [insertKey, lookupKey, h]
    · simp [insertKey, lookupKey, h0, ih]

/-! ## Branch equations for the orchestrator loop -/

theorem runItems_nil (env : Env) (st : OrchSt) :
    runItems env [] st = (st, [], LoopOut.finished) := rfl

theorem runItems_skip {env : Env} {key : String} {rest : List String} {st : OrchSt}
    (hc : containsKey st.record key = true) :
    runItems env (key :: rest) st = runItems env rest st := by
  simp [runItems, hc]

theorem runItems_navOk {env : Env} {key : String} {rest : List String} {st : OrchSt}
    {html : String} (hc : containsKey st.record key = false)
    (hnav : env.nav st.navIdx = NavResult.ok html) :
    runItems env (key :: rest) st =
      ((runItems env rest
          { st with record := insertKey st.record key (extract html),
                    store := some (insertKey st.record key (extract html)),
                    navIdx := st.navIdx + 1 }).1,
       Event.navigate key :: Event.save (insertKey st.record key (extract html)) ::
         (runItems env rest
            { st with record := insertKey st.record key (extract html),
                      store := some (insertKey st.record key (extract html)),
                      navIdx := st.navIdx + 1 }).2.1,
       (runItems env rest
          { st with record := insertKey st.record key (extract html),
                    store := some (insertKey st.record key (extract html)),
                    navIdx := st.navIdx + 1 }).2.2) := by
  simp [runItems, hc, hnav]

theorem runItems_recoverOk {env : Env} {key : String} {rest : List String} {st : OrchSt}
    (hc : containsKey st.record key = false) (hnav : env.nav st.navIdx = NavResult.err)
    (hq : env.quitOk st.quitIdx = true) (hi : env.initOk st.initIdx = true) :
    runItems env (key :: rest) st =
      ((runItems env rest
          { st with navIdx := st.navIdx + 1, quitIdx := st.quitIdx + 1,
                    initIdx := st.initIdx + 1, driverLive := true }).1,
       Event.navigate key :: Event.quitAttempt true :: Event.initDriver true ::
         (runItems env rest
            { st with navIdx := st.navIdx + 1, quitIdx := st.quitIdx + 1,
                      initIdx := st.initIdx + 1, driverLive := true }).2.1,
       (runItems env rest
          { st with navIdx := st.navIdx + 1, quitIdx := st.quitIdx + 1,
                    initIdx := st.initIdx + 1, driverLive := true }).2.2) := by
  simp [runItems, hc, hnav, hq, hi]

theorem runItems_recoverFail {env : Env} {key : String} {rest : List String} {st : OrchSt}
    (hc : containsKey st.record key = false) (hnav : env.nav st.navIdx = NavResult.err)
    (hq : env.quitOk st.quitIdx = true) (hi : env.initOk st.initIdx = false) :
    runItems env (key :: rest) st =
      ({ st with navIdx := st.navIdx + 1, quitIdx := st.quitIdx + 1,
                 initIdx := st.initIdx + 1, store := some st.record,
                 driverLive := false },
       [Event.navigate key, Event.quitAttempt true, Event.initDriver false,
        Event.save st.record],
       LoopOut.earlyReturn) := by
  simp [runItems, hc, hnav, hq, hi]

theorem runItems_quitFail {env : Env} {key : String} {rest : List String} {st : OrchSt}
    (hc : containsKey st.record key = false) (hnav : env.nav st.navIdx = NavResult.err)
    (hq : env.quitOk st.quitIdx = false) :
    runItems env (key :: rest) st =
      ({ st with navIdx := st.navIdx + 1, quitIdx := st.quitIdx + 1 },
       [Event.navigate key, Event.quitAttempt false],
       LoopOut.excEscape) := by
  simp [runItems, hc, hnav, hq]

theorem scrapeRun_initFail {env : Env} (init : Record) (items : List String)
    (h : env.initOk 0 = false) :
    scrapeRun env init items =
      ({ record := init, store := some init, navIdx := 0, initIdx := 1, quitIdx := 0,
         driverLive := false },
       [Event.initDriver false, Event.save init],
       RunExit.completed) := by
  simp [scrapeRun, h]

theorem scrapeRun_finished {env : Env} {init : Record} {items : List String}
    {st : OrchSt} {tr : List Event} (h : env.initOk 0 = true)
    (hr : runItems env items (initSt init) = (st, tr, LoopOut.finished)) :
    scrapeRun env init items =
      applyFinally env st (Event.initDriver true :: tr) RunExit.completed := by
  simp [scrapeRun, h, hr]

theorem scrapeRun_earlyReturn {env : Env} {init : Record} {items : List String}
    {st : OrchSt} {tr : List Event} (h : env.initOk 0 = true)
    (hr : runItems env items (initSt init) = (st, tr, LoopOut.earlyReturn)) :
    scrapeRun env init items =
      applyFinally env st (Event.initDriver true :: tr) RunExit.recoveryFailed := by
  simp [scrapeRun, h, hr]

theorem scrapeRun_excEscape {env : Env} {init : Record} {items : List String}
    {st : OrchSt} {tr : List Event} (h : env.initOk 0 = true)
    (hr : runItems env items (initSt init) = (st, tr, LoopOut.excEscape)) :
    scrapeRun env init items =
      applyFinally env { st with store := some st.record }
        (Event.initDriver true :: tr ++ [Event.save st.record]) RunExit.completed := by
  simp [scrapeRun, h, hr]

/-! ## Orchestrator invariants -/

/-- The entry k with value v is present in the in-memory record and in
the durable store. -/
def entryStored (k : String) (v : ResultSet) (st : OrchSt) : Prop :=
  lookupKey st.record k = some v ∧ ∃ s, st.store = some s ∧ lookupKey s k = some v

theorem runItems_record_mono (env : Env) {k : String} {v : ResultSet} :
    ∀ (items : List String) (st : OrchSt), lookupKey st.record k = some v →
      lookupKey (runItems env items st).1.record k = some v := by
  intro items
  induction items with
  | nil =>
    intro st h
    rw [runItems_nil]
    exact h
  | cons key rest ih =>
    intro st h
    cases hc : containsKey st.record key with
    | true =>
      rw [runItems_skip hc]
      exact ih st h
    | false =>
      have hkk : key ≠ k := by
        intro he
        subst he
        simp [containsKey, h] at hc
      cases hnav : env.nav st.navIdx with
      | ok html =>
        rw [runItems_navOk hc hnav]
        exact ih _ (by rw [lookupKey_insertKey_ne _ _ hkk]; exact h)
      | err =>
        cases hq : env.quitOk st.quitIdx with
        | true =>
          cases hi : env.initOk st.initIdx with
          | true =>
            rw [runItems_recoverOk hc hnav hq hi]
            exact ih _ h
          | false =>
            rw [runItems_recoverFail hc hnav hq hi]
            exact h
        | false =>
          rw [runItems_quitFail hc hnav hq]
          exact h

theorem runItems_no_navigate (env : Env) {k : String} {v : ResultSet} :
    ∀ (items : List String) (st : OrchSt), lookupKey st.record k = some v →
      Event.navigate k ∉ (runItems env items st).2.1 := by
  intro items
  induction items with
  | nil =>
    intro st h
    rw [runItems_nil]
    simp
  | cons key rest ih =>
    intro st h
    cases hc : containsKey st.record key with
    | true =>
      rw [runItems_skip hc]
      exact ih st h
    | false =>
      have hkk : key ≠ k := by
        intro he
        subst he
        simp [containsKey, h] at hc
      cases hnav : env.nav st.navIdx with
      | ok html =>
        rw [runItems_navOk hc hnav]
        intro hmem
        rcases List.mem_cons.mp hmem with h1 | hmem
        · exact hkk (by injection h1 with h'; exact h'.symm)
        rcases List.mem_cons.mp hmem with h1 | hmem
        · exact Event.noConfusion h1
        · exact ih _ (by rw [lookupKey_insertKey_ne _ _ hkk]; exact h) hmem
      | err =>
        cases hq : env.quitOk st.quitIdx with
        | true =>
          cases hi : env.initOk st.initIdx with
          | true =>
            rw [runItems_recoverOk hc hnav hq hi]
            intro hmem
            rcases List.mem_cons.mp hmem with h1 | hmem
            · exact hkk (by injection h1 with h'; exact h'.symm)
            rcases List.mem_cons.mp hmem with h1 | hmem
            · exact Event.noConfusion h1
            rcases List.mem_cons.mp hmem with h1 | hmem
            · exact Event.noConfusion h1
            · exact ih { st with navIdx := st.navIdx + 1, quitIdx := st.quitIdx + 1,
                                 initIdx := st.initIdx + 1, driverLive := true } h hmem
          | false =>
            rw [runItems_recoverFail hc hnav hq hi]
            intro hmem
            simp at hmem
            exact hkk hmem.symm
        | false =>
          rw [runItems_quitFail hc hnav hq]
          intro hmem
          simp at hmem
          exact hkk hmem.symm

theorem runItems_entryStored (env : Env) {k : String} {v : ResultSet} :
    ∀ (items : List String) (st : OrchSt), entryStored k v st →
      entryStored k v (runItems env items st).1 := by
  intro items
  induction items with
  | nil =>
    intro st h
    rw [runItems_nil]
    exact h
  | cons key rest ih =>
    intro st h
    cases hc : containsKey st.record key with
    | true =>
      rw [runItems_skip hc]
      exact ih st h
    | false =>
      have hkk : key ≠ k := by
        intro he
        subst he
        simp [containsKey, h.1] at hc
      cases hnav : env.nav st.navIdx with
      | ok html =>
        rw [runItems_navOk hc hnav]
        refine ih _ ⟨?_, ?_⟩
        · rw [lookupKey_insertKey_ne _ _ hkk]
          exact h.1
        · exact ⟨insertKey st.record key (extract html), rfl,
            by rw [lookupKey_insertKey_ne _ _ hkk]; exact h.1⟩
      | err =>
        cases hq : env.quitOk st.quitIdx with
        | true =>
          cases hi : env.initOk st.initIdx with
          | true =>
            rw [runItems_recoverOk hc hnav hq hi]
            exact ih _ h
          | false =>
            rw [runItems_recoverFail hc hnav hq hi]
            exact ⟨h.1, st.record, rfl, h.1⟩
        | false =>
          rw [runItems_quitFail hc hnav hq]
          exact h

theorem runItems_append_finished (env : Env) {as : List String} {st st1 : OrchSt}
    {tr1 : List Event} (h : runItems env as st = (st1, tr1, LoopOut.finished))
    (bs : List String) :
    runItems env (as ++ bs) st =
      ((runItems env bs st1).1, tr1 ++ (runItems env bs st1).2.1,
        (runItems env bs st1).2.2) := by
  induction as generalizing st tr1 with
  | nil =>
    rw [runItems_nil] at h
    simp only [Prod.mk.injEq] at h
    obtain ⟨rfl, rfl, -⟩ := h
    rcases hb : runItems env bs st with ⟨a, b, c⟩
    simp [hb]
  | cons key rest ih =>
    cases hc : containsKey st.record key with
    | true =>
      rw [runItems_skip hc] at h
      show runItems env (key :: (rest ++ bs)) st = _
      rw [runItems_skip hc]
      exact ih h
    | false =>
      cases hnav : env.nav st.navIdx with
      | ok html =>
        rw [runItems_navOk hc hnav] at h
        rcases hr : runItems env rest
            { st with record := insertKey st.record key (extract html),
                      store := some (insertKey st.record key (extract html)),
                      navIdx := st.navIdx + 1 } with ⟨a, b, c⟩
        rw [hr] at h
        simp only [Prod.mk.injEq] at h
        obtain ⟨rfl, rfl, rfl⟩ := h
        show runItems env (key :: (rest ++ bs)) st = _
        rw [runItems_navOk hc hnav, ih (by rw [hr])]
        simp
      | err =>
        cases hq : env.quitOk st.quitIdx with
        | true =>
          cases hi : env.initOk st.initIdx with
          | true =>
            rw [runItems_recoverOk hc hnav hq hi] at h
            rcases hr : runItems env rest
                { st with navIdx := st.navIdx + 1, quitIdx := st.quitIdx + 1,
                          initIdx := st.initIdx + 1, driverLive := true } with ⟨a, b, c⟩
            rw [hr] at h
            simp only [Prod.mk.injEq] at h
            obtain ⟨rfl, rfl, rfl⟩ := h
            show runItems env (key :: (rest ++ bs)) st = _
            rw [runItems_recoverOk hc hnav hq hi, ih (by rw [hr])]
            simp
          | false =>
            rw [runItems_recoverFail hc hnav hq hi] at h
            simp only [Prod.mk.injEq] at h
            exact absurd h.2.2 (by simp)
        | false =>
          rw [runItems_quitFail hc hnav hq] at h
          simp only [Prod.mk.injEq] at h
          exact absurd h.2.2 (by simp)

theorem applyFinally_record (env : Env) (st : OrchSt) (tr : List Event) (e : RunExit) :
    (applyFinally env st tr e).1.record = st.record ∧
      (applyFinally env st tr e).1.store = st.store := by
  unfold applyFinally
  split <;> simp

theorem scrapeRun_entryStored {env : Env} {init : Record} {items : List String}
    {k : String} {v : ResultSet} {st1 : OrchSt} {tr1 : List Event} {o : LoopOut}
    (h0 : env.initOk 0 = true)
    (hrun : runItems env items (initSt init) = (st1, tr1, o))
    (hst : entryStored k v st1) :
    ∃ s, (scrapeRun env init items).1.store = some s ∧ lookupKey s k = some v := by
  obtain ⟨hrec, s, hs, hlook⟩ := hst
  cases o with
  | finished =>
    rw [scrapeRun_finished h0 hrun]
    obtain ⟨-, h2⟩ :=
      applyFinally_record env st1 (Event.initDriver true :: tr1) RunExit.completed
    exact ⟨s, by rw [h2, hs], hlook⟩
  | earlyReturn =>
    rw [scrapeRun_earlyReturn h0 hrun]
    obtain ⟨-, h2⟩ :=
      applyFinally_record env st1 (Event.initDriver true :: tr1) RunExit.recoveryFailed
    exact ⟨s, by rw [h2, hs], hlook⟩
  | excEscape =>
    rw [scrapeRun_excEscape h0 hrun]
    obtain ⟨-, h2⟩ :=
      applyFinally_record env { st1 with store := some st1.record }
        (Event.initDriver true :: tr1 ++ [Event.save st1.record]) RunExit.completed
    exact ⟨st1.record, by rw [h2], hrec⟩

/-- Observer over the event trace: whether a live browser session
remains at the end.  A successful initialize_driver makes the session
live, a failed one leaves the driver variable None, a successful quit
releases the session, a failed quit leaves it unreleased. -/
def liveAfter : Bool → List Event → Bool
  | b, [] => b
  | _, Event.initDriver ok :: tr => liveAfter ok tr
  | b, Event.quitAttempt ok :: tr => liveAfter (if ok then false else b) tr
  | b, Event.navigate _ :: tr => liveAfter b tr
  | b, Event.save _ :: tr => liveAfter b tr

theorem liveAfter_append (b : Bool) (xs ys : List Event) :
    liveAfter b (xs ++ ys) = liveAfter (liveAfter b xs) ys := by
  induction xs generalizing b with
  | nil => rfl
  | cons e rest ih =>
    cases e <;> simp [liveAfter, ih]

theorem runItems_liveAfter (env : Env) :
    ∀ (items : List String) (st : OrchSt),
      liveAfter st.driverLive (runItems env items st).2.1 =
        (runItems env items st).1.driverLive := by
  intro items
  induction items with
  | nil =>
    intro st
    rw [runItems_nil]
    rfl
  | cons key rest ih =>
    intro st
    cases hc : containsKey st.record key with
    | true =>
      rw [runItems_skip hc]
      exact ih st
    | false =>
      cases hnav : env.nav st.navIdx with
      | ok html =>
        rw [runItems_navOk hc hnav]
        simp only [liveAfter]
        exact ih { st with record := insertKey st.record key (extract html),
                           store := some (insertKey st.record key (extract html)),
                           navIdx := st.navIdx + 1 }
      | err =>
        cases hq : env.quitOk st.quitIdx with
        | true =>
          cases hi : env.initOk st.initIdx with
          | true =>
            rw [runItems_recoverOk hc hnav hq hi]
            simp only [liveAfter, if_true]
            exact ih { st with navIdx := st.navIdx + 1, quitIdx := st.quitIdx + 1,
                               initIdx := st.initIdx + 1, driverLive := true }
          | false =>
            rw [runItems_recoverFail hc hnav hq hi]
            simp [liveAfter]
        | false =>
          rw [runItems_quitFail hc hnav hq]
          simp [liveAfter]

/-! ## Scroll-loop characterization -/

theorem scrollSteps_pos {last n : Nat} {hs : List Nat}
    (h : scrollSteps last hs = some n) : 0 < n := by
  cases hs with
  | nil => simp [scrollSteps] at h
  | cons x rest =>
    simp only [scrollSteps] at h
    split at h
    · simp only [Option.some.injEq] at h
      omega
    · rcases Option.map_eq_some'.mp h with ⟨a, -, ha⟩
      omega

theorem scrollSteps_iff : ∀ (hs : List Nat) (last k : Nat),
    scrollSteps last hs = some (k + 1) ↔
      ((last :: hs)[k]? = hs[k]? ∧ hs[k]? ≠ none ∧
        ∀ j < k, (last :: hs)[j]? ≠ hs[j]?) := by
  intro hs
  induction hs with
  | nil =>
    intro last k
    simp [scrollSteps]
  | cons x rest ih =>
    intro last k
    cases k with
    | zero =>
      by_cases hx : x = last
      · subst hx
        simp [scrollSteps]
      · constructor
        · intro h
          simp only [scrollSteps, if_neg hx] at h
          rcases Option.map_eq_some'.mp h with ⟨a, ha, hae⟩
          have := scrollSteps_pos ha
          omega
        · rintro ⟨h1, -, -⟩
          simp only [List.getElem?_cons_zero] at h1
          exact absurd (Option.some.inj h1).symm hx
    | succ s =>
      by_cases hx : x = last
      · subst hx
        constructor
        · intro h
          have hone : scrollSteps x (x :: rest) = some 1 := by simp [scrollSteps]
          rw [hone] at h
          have h' : (1 : Nat) = s + 1 + 1 := Option.some.inj h
          exact absurd h' (by omega)
        · rintro ⟨-, -, h3⟩
          have h0 := h3 0 (Nat.succ_pos s)
          simp at h0
      · constructor
        · intro h
          simp only [scrollSteps, if_neg hx] at h
          rcases Option.map_eq_some'.mp h with ⟨a, ha, hae⟩
          have has : a = s + 1 := by omega
          subst has
          obtain ⟨h1, h2, h3⟩ := (ih x s).mp ha
          refine ⟨?_, ?_, ?_⟩
          · simpa using h1
          · simpa using h2
          · intro j hj
            cases j with
            | zero =>
              simp only [List.getElem?_cons_zero]
              intro hc
              exact hx (Option.some.inj hc).symm
            | succ i =>
              have := h3 i (by omega)
              simpa using this
        · rintro ⟨h1, h2, h3⟩
          simp only [scrollSteps, if_neg hx]
          rw [Option.map_eq_some']
          refine ⟨s + 1, ?_, rfl⟩
          apply (ih x s).mpr
          refine ⟨?_, ?_, ?_⟩
          · simpa using h1
          · simpa using h2
          · intro i hi
            have := h3 (i + 1) (by omega)
            simpa using this

/-! ## Extractor shape lemmas -/

theorem startsWithChars_exists {p l : List Char} (h : startsWithChars p l = true) :
    ∃ u, p ++ u = l := by
  induction p generalizing l with
  | nil => exact ⟨l, rfl⟩
  | cons a ps ih =>
    cases l with
    | nil => simp [startsWithChars] at h
    | cons b bs =>
      simp only [startsWithChars, Bool.and_eq_true, decide_eq_true_eq] at h
      obtain ⟨hab, hrest⟩ := h
      obtain ⟨u, hu⟩ := ih hrest
      exact ⟨u, by simp [hab, hu]⟩

theorem startsWithChars_append {p t u : List Char}
    (h : startsWithChars p t = true) : startsWithChars p (t ++ u) = true := by
  induction p generalizing t with
  | nil => rfl
  | cons a ps ih =>
    cases t with
    | nil => simp [startsWithChars] at h
    | cons b bs =>
      simp only [startsWithChars, Bool.and_eq_true] at h ⊢
      exact ⟨h.1, ih h.2⟩

theorem blockedAt_append {t u : List Char} (h : blockedAt t = true) :
    blockedAt (t ++ u) = true := by
  simp only [blockedAt, Bool.or_eq_true] at h ⊢
  rcases h with (h | h) | h
  · exact Or.inl (Or.inl (startsWithChars_append h))
  · exact Or.inl (Or.inr (startsWithChars_append h))
  · exact Or.inr (startsWithChars_append h)

theorem tldAt_shape {x t : List Char} (h : tldAt x = some t) :
    2 ≤ t.length ∧ (∀ c ∈ t, c.isAlpha = true) ∧ blockedAt t = false := by
  simp only [tldAt] at h
  split at h
  · exact absurd h (by simp)
  · next hb =>
    split at h
    · next hlen =>
      simp only [Option.some.injEq] at h
      subst h
      refine ⟨hlen, fun c hc => List.mem_takeWhile_imp hc, ?_⟩
      by_contra hbt
      have hbt' : blockedAt (x.takeWhile Char.isAlpha) = true := by
        simpa using hbt
      have : blockedAt x = true := by
        have := @blockedAt_append _ (x.dropWhile Char.isAlpha) hbt'
        rwa [List.takeWhile_append_dropWhile] at this
      exact hb this
    · exact absurd h (by simp)

theorem searchDot_shape : ∀ {rev acc r3 d t : List Char},
    searchDot rev acc r3 = some (d, t) →
    d ≠ [] ∧ 2 ≤ t.length ∧ (∀ c ∈ t, c.isAlpha = true) ∧ blockedAt t = false := by
  intro rev
  induction rev with
  | nil =>
    intro acc r3 d t h
    simp [searchDot] at h
  | cons c revRest ih =>
    intro acc r3 d t h
    simp only [searchDot] at h
    split at h
    · next hcond =>
      cases htld : tldAt (acc ++ r3) with
      | some t' =>
        rw [htld] at h
        simp only [Option.some.injEq, Prod.mk.injEq] at h
        obtain ⟨hd, ht⟩ := h
        subst hd
        subst ht
        obtain ⟨h1, h2, h3⟩ := tldAt_shape htld
        refine ⟨by simpa using hcond.2, h1, h2, h3⟩
      | none =>
        rw [htld] at h
        exact ih h
    · exact ih h

theorem matchCore_shape {l m : List Char} (h : matchCore l = some m) :
    ∃ loc d t, m = loc ++ '@' :: (d ++ '.' :: t) ∧ loc ≠ [] ∧
      (∀ c ∈ loc, isLocalChar c = true) ∧ d ≠ [] ∧ 2 ≤ t.length ∧
      (∀ c ∈ t, c.isAlpha = true) ∧ blockedAt t = false := by
  simp only [matchCore] at h
  split at h
  · rename_i head tail r2 hloc hdrop
    split at h
    · rename_i d t hsd
      simp only [Option.some.injEq] at h
      obtain ⟨h1, h2, h3, h4⟩ := searchDot_shape hsd
      refine ⟨l.takeWhile isLocalChar, d, t, h.symm, ?_, ?_, h1, h2, h3, h4⟩
      · rw [hloc]
        simp
      · intro ch hch
        exact List.mem_takeWhile_imp hch
    · exact absurd h (by simp)
  · exact absurd h (by simp)

theorem findAllEmailsFuel_shape : ∀ {n : Nat} {l : List Char} {m : List Char},
    m ∈ findAllEmailsFuel n l →
    ∃ loc d t, m = loc ++ '@' :: (d ++ '.' :: t) ∧ loc ≠ [] ∧
      (∀ c ∈ loc, isLocalChar c = true) ∧ d ≠ [] ∧ 2 ≤ t.length ∧
      (∀ c ∈ t, c.isAlpha = true) ∧ blockedAt t = false := by
  intro n
  induction n with
  | zero =>
    intro l m h
    simp [findAllEmailsFuel] at h
  | succ n ih =>
    intro l m h
    cases l with
    | nil => simp [findAllEmailsFuel] at h
    | cons c rest =>
      rw [findAllEmailsFuel_succ] at h
      cases hm : matchAtStart (c :: rest) with
      | some p =>
        obtain ⟨m1, r⟩ := p
        rw [hm] at h
        rcases List.mem_cons.mp h with rfl | h1
        · rcases Option.map_eq_some'.mp hm with ⟨mc, hmc, hme⟩
          have hmcm : mc = m := by
            have := congrArg Prod.fst hme
            simpa using this
          exact hmcm ▸ matchCore_shape hmc
        · exact ih h1
      | none =>
        rw [hm] at h
        exact ih h

theorem extract_shape {s e : String} (h : e ∈ extract s) :
    ∃ loc d t, e.data = loc ++ '@' :: (d ++ '.' :: t) ∧ loc ≠ [] ∧
      (∀ c ∈ loc, isLocalChar c = true) ∧ d ≠ [] ∧ 2 ≤ t.length ∧
      (∀ c ∈ t, c.isAlpha = true) ∧ blockedAt t = false := by
  have h1 : e ∈ (((findAllEmails s.data).map fun cs => String.mk cs).dedup) :=
    (List.perm_insertionSort StrLe _).mem_iff.mp h
  have h2 : e ∈ ((findAllEmails s.data).map fun cs => String.mk cs) :=
    List.mem_dedup.mp h1
  obtain ⟨m, hm, he⟩ := List.mem_map.mp h2
  have shape := @findAllEmailsFuel_shape (s.data).length s.data m hm
  subst he
  simpa using shape

theorem navigate_notMem_applyFinally {env : Env} {st : OrchSt} {tr : List Event}
    {e : RunExit} {k : String} (h : Event.navigate k ∉ tr) :
    Event.navigate k ∉ (applyFinally env st tr e).2.1 := by
  unfold applyFinally
  split
  · intro hmem
    rcases List.mem_append.mp hmem with h1 | h1
    · exact h h1
    · simp at h1
  · exact h

theorem applyFinally_release {env : Env} {st : OrchSt} {tr : List Event} {e : RunExit}
    (he : e ≠ RunExit.raised) (hlt : liveAfter false tr = st.driverLive) :
    ((applyFinally env st tr e).2.2 ≠ RunExit.raised →
      liveAfter false (applyFinally env st tr e).2.1 = false) ∧
    ((applyFinally env st tr e).2.2 = RunExit.raised →
      (applyFinally env st tr e).2.1.getLast? = some (Event.quitAttempt false)) := by
  cases hb : st.driverLive with
  | false =>
    simp only [applyFinally, hb, Bool.false_eq_true, if_false]
    refine ⟨fun _ => ?_, fun hr => absurd hr he⟩
    rw [hlt, hb]
  | true =>
    simp only [applyFinally, hb, if_true]
    cases hq : env.quitOk st.quitIdx with
    | true =>
      refine ⟨fun _ => ?_, fun hr => ?_⟩
      · rw [liveAfter_append, hlt, hb]
        rfl
      · exact absurd hr (by simp [he])
    | false =>
      refine ⟨fun hnr => absurd rfl hnr, fun _ => ?_⟩
      exact List.getLast?_concat tr

/-! ## Claim theorems -/

/-- C1 (write-through persistence): if after some prefix of the work
items the loop reaches a state whose record does not yet contain item
k, and the navigation for k succeeds with page content html, then at
the end of the whole run, whatever happens to the later items (any
outcomes of navigations, quits and restarts, including an abort), the
durable store holds a record whose entry for k is exactly
extract html, the ResultSet just computed. -/
theorem C1_write_through (env : Env) (init : Record) (pre post : List String)
    (k html : String) (st1 : OrchSt) (tr1 : List Event)
    (h0 : env.initOk 0 = true)
    (hpre : runItems env pre (initSt init) = (st1, tr1, LoopOut.finished))
    (hnew : containsKey st1.record k = false)
    (hnav : env.nav st1.navIdx = NavResult.ok html) :
    ∃ s, (scrapeRun env init (pre ++ k :: post)).1.store = some s ∧
      lookupKey s k = some (extract html) := by
  rcases hrest : runItems env post
      { st1 with record := insertKey st1.record k (extract html),
                 store := some (insertKey st1.record k (extract html)),
                 navIdx := st1.navIdx + 1 } with ⟨st2, tr2, o2⟩
  have hkpost : runItems env (k :: post) st1 =
      (st2, Event.navigate k ::
        Event.save (insertKey st1.record k (extract html)) :: tr2, o2) := by
    rw [runItems_navOk hnew hnav, hrest]
  have hfull : runItems env (pre ++ k :: post) (initSt init) =
      (st2, tr1 ++ Event.navigate k ::
        Event.save (insertKey st1.record k (extract html)) :: tr2, o2) := by
    rw [runItems_append_finished env hpre (k :: post), hkpost]
  have hstored : entryStored k (extract html) st2 := by
    have hX : entryStored k (extract html)
        { st1 with record := insertKey st1.record k (extract html),
                   store := some (insertKey st1.record k (extract html)),
                   navIdx := st1.navIdx + 1 } :=
      ⟨lookupKey_insertKey_self _ _ _,
        insertKey st1.record k (extract html), rfl,
        lookupKey_insertKey_self _ _ _⟩
    have := runItems_entryStored env post _ hX
    rw [hrest] at this
    exact this
  exact scrapeRun_entryStored h0 hfull hstored

theorem C1_write_through_witness :
    ∃ s, (scrapeRun envScenario [] ["Austin"]).1.store = some s ∧
      lookupKey s "Austin" = some (extract "call a@x.com") :=
  C1_write_through envScenario [] [] [] "Austin" "call a@x.com" (initSt []) [] rfl rfl
    (by decide) rfl

/-- C2 (idempotent skip): a work item already present as a key in the
loaded record is never navigated to during the whole run, and its
ResultSet in the record is unchanged at the end of the run. -/
theorem C2_idempotent_skip (env : Env) (init : Record) (items : List String)
    (k : String) (v : ResultSet) (h : lookupKey init k = some v) :
    Event.navigate k ∉ (scrapeRun env init items).2.1 ∧
      lookupKey (scrapeRun env init items).1.record k = lookupKey init k := by
  rw [h]
  cases h0 : env.initOk 0 with
  | false =>
    rw [scrapeRun_initFail init items h0]
    constructor
    · intro hmem
      simp at hmem
    · exact h
  | true =>
    rcases hrun : runItems env items (initSt init) with ⟨st1, tr1, o⟩
    have hmono : lookupKey st1.record k = some v := by
      have := runItems_record_mono env items (initSt init) h
      rw [hrun] at this
      exact this
    have hnavi : Event.navigate k ∉ tr1 := by
      have := runItems_no_navigate env items (initSt init) h
      rw [hrun] at this
      exact this
    cases o with
    | finished =>
      rw [scrapeRun_finished h0 hrun]
      refine ⟨?_, ?_⟩
      · apply navigate_notMem_applyFinally
        intro hmem
        rcases List.mem_cons.mp hmem with h1 | h1
        · exact Event.noConfusion h1
        · exact hnavi h1
      · rw [(applyFinally_record env st1 _ _).1]
        exact hmono
    | earlyReturn =>
      rw [scrapeRun_earlyReturn h0 hrun]
      refine ⟨?_, ?_⟩
      · apply navigate_notMem_applyFinally
        intro hmem
        rcases List.mem_cons.mp hmem with h1 | h1
        · exact Event.noConfusion h1
        · exact hnavi h1
      · rw [(applyFinally_record env st1 _ _).1]
        exact hmono
    | excEscape =>
      rw [scrapeRun_excEscape h0 hrun]
      refine ⟨?_, ?_⟩
      · apply navigate_notMem_applyFinally
        intro hmem
        rcases List.mem_cons.mp hmem with h1 | h1
        · exact Event.noConfusion h1
        · rcases List.mem_append.mp h1 with h2 | h2
          · exact hnavi h2
          · simp at h2
      · rw [(applyFinally_record env _ _ _).1]
        exact hmono

theorem C2_idempotent_skip_witness :
    lookupKey [("A", ["x@y.com"])] "A" = some ["x@y.com"] ∧
      Event.navigate "A" ∉
        (scrapeRun envScenario [("A", ["x@y.com"])] ["A", "B"]).2.1 ∧
      lookupKey (scrapeRun envScenario [("A", ["x@y.com"])] ["A", "B"]).1.record "A" =
        lookupKey [("A", ["x@y.com"])] "A" :=
  ⟨by decide,
   (C2_idempotent_skip envScenario [("A", ["x@y.com"])] ["A", "B"] "A" ["x@y.com"]
     (by decide)).1,
   (C2_idempotent_skip envScenario [("A", ["x@y.com"])] ["A", "B"] "A" ["x@y.com"]
     (by decide)).2⟩

/-- C3, the code's behaviour at the failing input: item A fails with a
WebDriverException, the driver restart succeeds, and the code logs that
A will be retried, but the continue statement advances the for loop, so
the next navigation is for B; A is navigated exactly once, never
retried, and the run completes with no entry for A. -/
theorem C3_continue_goes_to_next_item :
    (scrapeRun envRetryOnce [] ["A", "B"]).2.1 =
      [Event.initDriver true, Event.navigate "A", Event.quitAttempt true,
       Event.initDriver true, Event.navigate "B", Event.save [("B", ["b@x.com"])],
       Event.quitAttempt true] ∧
      lookupKey (scrapeRun envRetryOnce [] ["A", "B"]).1.record "A" = none ∧
      (scrapeRun envRetryOnce [] ["A", "B"]).2.2 = RunExit.completed :=
  ⟨by decide, by decide, by decide⟩

/-- C4 counterexample: in a run whose driver restart fails, the
orchestrator saves the record as-is and attempts no further item, but
scrape_google_emails returns normally and the process exit status is 0,
a success status, refuting the claimed non-success exit status. -/
theorem C4_counterexample_exit_status :
    (scrapeRun envRecoveryFail [] ["A", "B"]).2.2 = RunExit.recoveryFailed ∧
      (scrapeRun envRecoveryFail [] ["A", "B"]).1.store = some [] ∧
      Event.navigate "B" ∉ (scrapeRun envRecoveryFail [] ["A", "B"]).2.1 ∧
      mainExitCode true ["A", "B"] = 0 :=
  ⟨by decide, by decide, by decide, by decide⟩

/-- C4 amended: when the driver restart after a transient navigation
failure fails, the orchestrator persists the current record as-is (the
final save event carries it and the durable store equals it), attempts
no further work items (the trace ends at that save), and the function
returns; the process then terminates with exit status 0, since only an
empty work-item list produces a non-zero exit status. -/
theorem C4_recovery_failure_abort (env : Env) (init : Record) (pre post : List String)
    (k : String) (st1 : OrchSt) (tr1 : List Event)
    (h0 : env.initOk 0 = true)
    (hpre : runItems env pre (initSt init) = (st1, tr1, LoopOut.finished))
    (hc : containsKey st1.record k = false)
    (hnav : env.nav st1.navIdx = NavResult.err)
    (hq : env.quitOk st1.quitIdx = true)
    (hi : env.initOk st1.initIdx = false) :
    scrapeRun env init (pre ++ k :: post) =
      ({ st1 with navIdx := st1.navIdx + 1, quitIdx := st1.quitIdx + 1,
                  initIdx := st1.initIdx + 1, store := some st1.record,
                  driverLive := false },
       Event.initDriver true :: tr1 ++
         [Event.navigate k, Event.quitAttempt true, Event.initDriver false,
          Event.save st1.record],
       RunExit.recoveryFailed) ∧
      ∀ locs : List String, locs ≠ [] → mainExitCode true locs = 0 := by
  constructor
  · have hstep := @runItems_recoverFail env k post st1 hc hnav hq hi
    have hfull : runItems env (pre ++ k :: post) (initSt init) =
        ({ st1 with navIdx := st1.navIdx + 1, quitIdx := st1.quitIdx + 1,
                    initIdx := st1.initIdx + 1, store := some st1.record,
                    driverLive := false },
         tr1 ++ [Event.navigate k, Event.quitAttempt true, Event.initDriver false,
           Event.save st1.record],
         LoopOut.earlyReturn) := by
      rw [runItems_append_finished env hpre (k :: post), hstep]
    rw [scrapeRun_earlyReturn h0 hfull]
    simp [applyFinally]
  · intro locs hne
    cases locs with
    | nil => exact absurd rfl hne
    | cons a as => rfl

theorem C4_recovery_failure_abort_witness :
    (scrapeRun envRecoveryFail [] ["A", "B"]).2.2 = RunExit.recoveryFailed ∧
      mainExitCode true ["A", "B"] = 0 := by
  constructor
  · have h := (C4_recovery_failure_abort envRecoveryFail [] [] ["B"] "A" (initSt []) []
      rfl rfl (by decide) rfl rfl rfl).1
    simp only [List.nil_append] at h
    rw [h]
  · exact (C4_recovery_failure_abort envRecoveryFail [] [] ["B"] "A" (initSt []) []
      rfl rfl (by decide) rfl rfl rfl).2 ["A", "B"] (by decide)

/-- C5 counterexample: the input a@b.pngs contains the substring
a@b.pngs of the claimed shape (local part a, domain b, then a literal
dot and the four-letter top-level label pngs), whose final label is not
exactly png, jpg or jpeg, yet Extract yields no match at all: the
code's negative lookahead rejects every final label that merely starts
with png, jpg or jpeg. -/
theorem C5_counterexample_pngs :
    extract "a@b.pngs" = [] ∧
      ("pngs" ≠ "png" ∧ "pngs" ≠ "jpg" ∧ "pngs" ≠ "jpeg") ∧
      ("pngs".data.all Char.isAlpha) = true ∧ 2 ≤ "pngs".length :=
  ⟨by decide, by decide, by decide, by decide⟩

/-- C5 amended (extraction exclusion): every extracted entry has the
shape local-part, at-sign, domain, literal dot, top-level label, where
the local part is a nonempty run over [A-Za-z0-9._%+-], the domain is
nonempty, and the final label is at least two ASCII letters and does
not begin with png, jpg or jpeg (blockedAt is exactly that test); in
particular foo@bar.png and x@y.jpeg yield no match, while a@b.com
yields exactly a@b.com. -/
theorem C5_extraction_exclusion :
    (∀ s e, e ∈ extract s →
      ∃ loc d t, e.data = loc ++ '@' :: (d ++ '.' :: t) ∧ loc ≠ [] ∧
        (∀ c ∈ loc, isLocalChar c = true) ∧ d ≠ [] ∧ 2 ≤ t.length ∧
        (∀ c ∈ t, c.isAlpha = true) ∧ blockedAt t = false) ∧
      extract "foo@bar.png" = [] ∧ extract "x@y.jpeg" = [] ∧
      extract "a@b.com" = ["a@b.com"] :=
  ⟨fun _ _ h => extract_shape h, by decide, by decide, by decide⟩

theorem C5_extraction_exclusion_witness :
    ∃ loc d t, ("a@b.com" : String).data = loc ++ '@' :: (d ++ '.' :: t) ∧
      loc ≠ [] ∧ (∀ c ∈ loc, isLocalChar c = true) ∧ d ≠ [] ∧ 2 ≤ t.length ∧
      (∀ c ∈ t, c.isAlpha = true) ∧ blockedAt t = false :=
  C5_extraction_exclusion.1 "a@b.com" "a@b.com" (by decide)

/-- C6 (extraction determinism and normal form): extract is a function
of the input string alone, so applying it twice to the same input gives
identical output; the output is sorted ascending in the lexicographic
code-point order StrLe, the order Python's sorted uses on strings, and
contains no duplicate entries. -/
theorem C6_extract_deterministic (s : String) :
    extract s = extract s ∧ (extract s).Sorted StrLe ∧ (extract s).Nodup :=
  ⟨rfl, List.sorted_insertionSort StrLe _,
    (List.perm_insertionSort StrLe _).nodup_iff.mpr (List.nodup_dedup _)⟩

/-- Concrete stand-in for json.loads at the inputs the C7 theorems use:
the text consisting of an opening and a closing square bracket parses
to the empty JSON array; everything else is treated as unparseable. -/
def parsesEmptyArray : String → Option JsonVal :=
  fun s => if s = "[]" then some (JsonVal.arr []) else none

/-- C7 counterexample: a durable store whose content is the two-byte
text of an empty JSON array parses as JSON but not as the expected
mapping; the claim says Load then returns an empty CheckpointRecord,
but load_checkpoint returns the parsed non-mapping value unchanged. -/
theorem C7_counterexample_non_mapping :
    load_checkpoint true "[]" parsesEmptyArray = JsonVal.arr [] ∧
      JsonVal.arr [] ≠ JsonVal.obj [] :=
  ⟨rfl, fun h => JsonVal.noConfusion h⟩

/-- C7 amended (corrupt-checkpoint recovery): load_checkpoint returns
the empty record when the storage location does not exist, when the
stripped content is empty, and when json.loads fails (both
json.JSONDecodeError and any other exception are caught); when
json.loads succeeds its value is returned unchanged, whether or not it
is a mapping, and load_checkpoint never raises (it is total). -/
theorem C7_load_corrupt_checkpoint (raw : String) (p : String → Option JsonVal) :
    load_checkpoint false raw p = JsonVal.obj [] ∧
      (pyStrip raw = "" → load_checkpoint true raw p = JsonVal.obj []) ∧
      (p (pyStrip raw) = none → load_checkpoint true raw p = JsonVal.obj []) ∧
      (∀ v, p (pyStrip raw) = some v → pyStrip raw ≠ "" →
        load_checkpoint true raw p = v) := by
  refine ⟨rfl, ?_, ?_, ?_⟩
  · intro h
    simp [load_checkpoint, h]
  · intro h
    by_cases he : pyStrip raw = ""
    · simp [load_checkpoint, he]
    · simp [load_checkpoint, he, h]
  · intro v hv hne
    simp [load_checkpoint, hne, hv]

theorem C7_load_corrupt_checkpoint_witness :
    load_checkpoint false "x" parsesEmptyArray = JsonVal.obj [] ∧
      load_checkpoint true "  " parsesEmptyArray = JsonVal.obj [] ∧
      load_checkpoint true "not json" parsesEmptyArray = JsonVal.obj [] ∧
      load_checkpoint true "[]" parsesEmptyArray = JsonVal.arr [] :=
  ⟨(C7_load_corrupt_checkpoint "x" parsesEmptyArray).1,
   (C7_load_corrupt_checkpoint "  " parsesEmptyArray).2.1 (by decide),
   (C7_load_corrupt_checkpoint "not json" parsesEmptyArray).2.2.1 rfl,
   (C7_load_corrupt_checkpoint "[]" parsesEmptyArray).2.2.2 (JsonVal.arr []) rfl
     (by decide)⟩

/-- C8 (scroll-to-exhaustion termination): on the measured extent
sequence 100, 250, 250 the scroll loop issues exactly 2 growth actions;
in general the loop performs k+1 scroll actions and terminates exactly
when position k is the first position of the measurement sequence whose
extent equals the one before it. -/
theorem C8_scroll_termination :
    scrollRun [100, 250, 250] = some 2 ∧
      ∀ (hs : List Nat) (last k : Nat),
        (scrollSteps last hs = some (k + 1) ↔
          ((last :: hs)[k]? = hs[k]? ∧ hs[k]? ≠ none ∧
            ∀ j < k, (last :: hs)[j]? ≠ hs[j]?)) :=
  ⟨by decide, fun hs last k => scrollSteps_iff hs last k⟩

theorem C8_scroll_termination_witness :
    scrollRun [100, 250, 250] = some 2 ∧ scrollSteps 100 [250, 250] = some 2 :=
  ⟨C8_scroll_termination.1,
   (C8_scroll_termination.2 [250, 250] 100 1).mpr (by decide)⟩

/-- C9 counterexample: in a run where every navigation succeeds but
driver.quit raises, scrape_google_emails ends with RunExit.raised: the
teardown failure in the finally clause propagates out of the function
to its caller instead of being logged and suppressed. -/
theorem C9_counterexample_teardown_propagates :
    (scrapeRun envQuitFail [] ["A"]).2.2 = RunExit.raised ∧
      (scrapeRun envQuitFail [] ["A"]).2.1.getLast? =
        some (Event.quitAttempt false) :=
  ⟨by decide, by decide⟩

/-- C9 amended (session release): on every path where
scrape_google_emails returns to its caller, no live session remains at
the end of the trace: the finally clause has quit any live driver (and
recovery always quits the old driver before replacing it); when the run
instead ends by an exception escaping the function (RunExit.raised),
that exception is precisely a driver.quit failure in the finally
clause, so a teardown failure propagates to the caller rather than
being logged and swallowed. -/
theorem C9_session_release (env : Env) (init : Record) (items : List String) :
    ((scrapeRun env init items).2.2 ≠ RunExit.raised →
      liveAfter false (scrapeRun env init items).2.1 = false) ∧
    ((scrapeRun env init items).2.2 = RunExit.raised →
      (scrapeRun env init items).2.1.getLast? = some (Event.quitAttempt false)) := by
  cases h0 : env.initOk 0 with
  | false =>
    rw [scrapeRun_initFail init items h0]
    exact ⟨fun _ => rfl, fun hr => absurd hr (by simp)⟩
  | true =>
    rcases hrun : runItems env items (initSt init) with ⟨st1, tr1, o⟩
    have hlive : liveAfter true tr1 = st1.driverLive := by
      have := runItems_liveAfter env items (initSt init)
      rw [hrun] at this
      exact this
    cases o with
    | finished =>
      rw [scrapeRun_finished h0 hrun]
      exact applyFinally_release (by simp) (by simpa [liveAfter] using hlive)
    | earlyReturn =>
      rw [scrapeRun_earlyReturn h0 hrun]
      exact applyFinally_release (by simp) (by simpa [liveAfter] using hlive)
    | excEscape =>
      rw [scrapeRun_excEscape h0 hrun]
      refine applyFinally_release (by simp) ?_
      show liveAfter false (Event.initDriver true :: (tr1 ++ [Event.save st1.record])) =
        st1.driverLive
      simp only [liveAfter, liveAfter_append, hlive]

theorem C9_session_release_witness :
    liveAfter false (scrapeRun envScenario [] ["Austin"]).2.1 = false :=
  (C9_session_release envScenario [] ["Austin"]).1 (by decide)

/-- C10 (frame property of per-item processing): when the orchestrator
processes a new item k successfully, it saves the full record obtained
by adding k's entry to the current record, and every other key's
binding in that saved record equals its binding beforehand, so the
write-through save preserves all other entries in durable storage. -/
theorem C10_frame (env : Env) (st : OrchSt) (k : String) (rest : List String)
    (html : String) (hc : containsKey st.record k = false)
    (hnav : env.nav st.navIdx = NavResult.ok html) :
    (∃ st' tr' o, runItems env (k :: rest) st =
        (st', Event.navigate k ::
          Event.save (insertKey st.record k (extract html)) :: tr', o)) ∧
      ∀ k', k' ≠ k →
        lookupKey (insertKey st.record k (extract html)) k' = lookupKey st.record k' := by
  constructor
  · rw [runItems_navOk hc hnav]
    exact ⟨_, _, _, rfl⟩
  · intro k' hk
    exact lookupKey_insertKey_ne _ _ fun he => hk he.symm

theorem C10_frame_witness :
    (∃ st' tr' o, runItems envScenario ["Austin"] (initSt []) =
        (st', Event.navigate "Austin" ::
          Event.save (insertKey [] "Austin" (extract "call a@x.com")) :: tr', o)) ∧
      lookupKey (insertKey [] "Austin" (extract "call a@x.com")) "Dallas" =
        lookupKey ([] : Record) "Dallas" :=
  ⟨(C10_frame envScenario (initSt []) "Austin" [] "call a@x.com" (by decide) rfl).1,
   (C10_frame envScenario (initSt []) "Austin" [] "call a@x.com" (by decide) rfl).2
     "Dallas" (by decide)⟩
